import Mathlib

/-!
Verification development for the next-toppers content catalog.

Strings are modeled as lists of characters so that trimming, substring
search and percent-encoding can be reasoned about directly.  Each model
definition is a direct translation of the corresponding function of the
repository; file and line references are given in the doc comments.
-/

set_option autoImplicit false

namespace NextToppers

/-! ## Character and string helpers (JS string primitives used by the code) -/

/-- Whitespace characters removed by the JS String.trim method (ASCII range;
the rarely used Unicode space classes are not produced by any input of the
model). -/
def isJsSpace (c : Char) : Bool :=
  c = ' ' || c = Char.ofNat 9 || c = Char.ofNat 10 || c = Char.ofNat 13 ||
  c = Char.ofNat 11 || c = Char.ofNat 12

/-- Model of the JS String.trim method: strip leading and trailing whitespace. -/
def trimChars (l : List Char) : List Char :=
  ((l.dropWhile isJsSpace).reverse.dropWhile isJsSpace).reverse

/-- Uppercase hexadecimal digit, as produced by encodeURIComponent. -/
def hexDigit (n : Nat) : Char :=
  if n < 10 then Char.ofNat (48 + n) else Char.ofNat (55 + n)

/-- UTF-8 byte sequence of a code point. -/
def utf8Bytes (n : Nat) : List Nat :=
  if n < 128 then [n]
  else if n < 2048 then [192 + n / 64, 128 + n % 64]
  else if n < 65536 then [224 + n / 4096, 128 + (n / 64) % 64, 128 + n % 64]
  else [240 + n / 262144, 128 + (n / 4096) % 64, 128 + (n / 64) % 64, 128 + n % 64]

/-- Characters that encodeURIComponent leaves unescaped. -/
def isUnreservedChar (c : Char) : Bool :=
  c.isAlpha || c.isDigit || c = '-' || c = '_' || c = '.' || c = '!' ||
  c = '~' || c = '*' || c = Char.ofNat 39 || c = '(' || c = ')'

/-- Percent-escape of one byte. -/
def pctEncodeByte (b : Nat) : List Char :=
  ['%', hexDigit (b / 16), hexDigit (b % 16)]

/-- Model of the JS encodeURIComponent function. -/
def encodeURIComponent (l : List Char) : List Char :=
  l.foldr
    (fun c acc =>
      (if isUnreservedChar c then [c] else ((utf8Bytes c.toNat).map pctEncodeByte).flatten) ++ acc)
    []

/-! ## URL normalization (src/src/utils/videoPlayer.ts, getVideoPlayerURL) -/

/-- The fixed live-playback prefix of getVideoPlayerURL. -/
def livePfx : List Char := "https://edumastervideoplarerwatch.netlify.app/live/".toList

/-- The fixed recorded-playback prefix of getVideoPlayerURL. -/
def recPfx : List Char := "https://edumastervideoplarerwatch.netlify.app/rec/".toList

/-- Model of getVideoPlayerURL (src/src/utils/videoPlayer.ts lines 1-18):
blank input gives the sentinel, an already prefixed input is returned
unchanged, otherwise the prefix chosen by isLive is prepended to the
percent-encoded input. -/
def getVideoPlayerURL (videoUrl : List Char) (isLive : Bool) : List Char :=
  if videoUrl.isEmpty || (trimChars videoUrl).isEmpty then "#".toList
  else if livePfx.isPrefixOf videoUrl || recPfx.isPrefixOf videoUrl then videoUrl
  else (if isLive then livePfx else recPfx) ++ encodeURIComponent videoUrl

/-! ### Helper lemmas about trimming and prefixes -/

theorem isPrefixOf_append_self : ∀ (l t : List Char), l.isPrefixOf (l ++ t) = true
  | [], _ => by simp [List.isPrefixOf]
  | a :: l, t => by simp [List.isPrefixOf, isPrefixOf_append_self l t]

theorem dropWhile_ne_nil_of_mem {p : Char → Bool} {l : List Char} {c : Char}
    (hm : c ∈ l) (hc : p c = false) : l.dropWhile p ≠ [] := by
  intro h
  rw [List.dropWhile_eq_nil_iff] at h
  exact absurd (h c hm) (by simp [hc])

theorem trimChars_cons_ne_nil {a : Char} {t : List Char} (h : isJsSpace a = false) :
    (trimChars (a :: t)).isEmpty = false := by
  have h1 : (a :: t).dropWhile isJsSpace = a :: t := by
    simp [List.dropWhile_cons, h]
  have h2 : a ∈ ((a :: t).dropWhile isJsSpace).reverse := by
    rw [h1]; simp
  have h3 : ((a :: t).dropWhile isJsSpace).reverse.dropWhile isJsSpace ≠ [] :=
    dropWhile_ne_nil_of_mem h2 h
  simp [trimChars, List.isEmpty_iff]
  exact ⟨a, by rw [h1]; exact List.mem_cons_self a t, h⟩

theorem trim_ne_nil_of_prefixed {raw : List Char}
    (h : (livePfx.isPrefixOf raw || recPfx.isPrefixOf raw) = true) :
    (trimChars raw).isEmpty = false := by
  cases raw with
  | nil =>
      exfalso
      revert h
      decide
  | cons a t =>
      have ha : a = 'h' := by
        rcases Bool.or_eq_true_iff.mp h with h1 | h1
        · have : livePfx.isPrefixOf (a :: t) = true := h1
          rw [show livePfx = 'h' :: livePfx.tail from by decide] at this
          simp [List.isPrefixOf] at this
          exact this.1.symm
        · have : recPfx.isPrefixOf (a :: t) = true := h1
          rw [show recPfx = 'h' :: recPfx.tail from by decide] at this
          simp [List.isPrefixOf] at this
          exact this.1.symm
      exact trimChars_cons_ne_nil (by rw [ha]; decide)

/-! ### C7: spec conformance of getVideoPlayerURL -/

/-- C7: normalize(raw, isLive) returns the sentinel for blank input, returns an
already prefixed input unchanged, and otherwise prepends the prefix selected by
isLive to the percent-encoded input. -/
theorem c7_normalize_cases (raw : List Char) (m : Bool) :
    ((trimChars raw).isEmpty = true → getVideoPlayerURL raw m = "#".toList) ∧
    ((livePfx.isPrefixOf raw || recPfx.isPrefixOf raw) = true →
      getVideoPlayerURL raw m = raw) ∧
    ((trimChars raw).isEmpty = false →
      (livePfx.isPrefixOf raw || recPfx.isPrefixOf raw) = false →
      getVideoPlayerURL raw m = (if m then livePfx else recPfx) ++ encodeURIComponent raw) := by
  refine ⟨?_, ?_, ?_⟩
  · intro h
    simp [getVideoPlayerURL, h]
  · intro h
    have hb : (trimChars raw).isEmpty = false := trim_ne_nil_of_prefixed h
    have hne : raw.isEmpty = false := by
      cases raw with
      | nil => exfalso; revert h; decide
      | cons a t => rfl
    simp [getVideoPlayerURL, hb, hne, h]
  · intro hb hp
    have hne : raw.isEmpty = false := by
      cases raw with
      | nil => exfalso; revert hb; decide
      | cons a t => rfl
    simp [getVideoPlayerURL, hb, hne, hp]

/-- Witness for c7_normalize_cases at concrete inputs. -/
theorem c7_normalize_cases_witness :
    getVideoPlayerURL "   ".toList true = "#".toList ∧
    getVideoPlayerURL livePfx false = livePfx ∧
    getVideoPlayerURL "abc".toList false = recPfx ++ encodeURIComponent "abc".toList := by
  refine ⟨?_, ?_, ?_⟩
  · exact (c7_normalize_cases "   ".toList true).1 (by decide)
  · exact (c7_normalize_cases livePfx false).2.1 (by decide)
  · exact (c7_normalize_cases "abc".toList false).2.2 (by decide) (by decide)

/-! ### C4: idempotence of URL normalization -/

/-- C4 counterexample: normalization is not idempotent on blank input, because
the sentinel itself gets wrapped by a second application. -/
theorem c4_counterexample :
    getVideoPlayerURL (getVideoPlayerURL [] false) false ≠ getVideoPlayerURL [] false := by
  decide

/-- C4 amended: normalization is idempotent for every input whose trim is
non-empty; on blank input the first application yields the sentinel and the
second application wraps the sentinel in a playback prefix. -/
theorem c4_idempotent_nonblank (x : List Char) (m : Bool)
    (h : (trimChars x).isEmpty = false) :
    getVideoPlayerURL (getVideoPlayerURL x m) m = getVideoPlayerURL x m := by
  have hne : x.isEmpty = false := by
    cases x with
    | nil => exfalso; revert h; decide
    | cons a t => rfl
  by_cases hp : (livePfx.isPrefixOf x || recPfx.isPrefixOf x) = true
  · have hx : getVideoPlayerURL x m = x := (c7_normalize_cases x m).2.1 hp
    rw [hx, hx]
  · have hp2 : (livePfx.isPrefixOf x || recPfx.isPrefixOf x) = false :=
      Bool.eq_false_iff.mpr hp
    have hx : getVideoPlayerURL x m = (if m then livePfx else recPfx) ++ encodeURIComponent x := by
      simp [getVideoPlayerURL, h, hne, hp2]
    rw [hx]
    cases m with
    | true =>
        have : (livePfx.isPrefixOf (livePfx ++ encodeURIComponent x) ||
            recPfx.isPrefixOf (livePfx ++ encodeURIComponent x)) = true := by
          simp [isPrefixOf_append_self]
        simpa using (c7_normalize_cases (livePfx ++ encodeURIComponent x) true).2.1 this
    | false =>
        have : (livePfx.isPrefixOf (recPfx ++ encodeURIComponent x) ||
            recPfx.isPrefixOf (recPfx ++ encodeURIComponent x)) = true := by
          simp [isPrefixOf_append_self]
        simpa using (c7_normalize_cases (recPfx ++ encodeURIComponent x) false).2.1 this

/-- Witness for c4_idempotent_nonblank at a concrete input. -/
theorem c4_idempotent_nonblank_witness :
    getVideoPlayerURL (getVideoPlayerURL "a b".toList true) true =
      getVideoPlayerURL "a b".toList true :=
  c4_idempotent_nonblank "a b".toList true (by decide)

/-! ## Row parser (src/unnamed/part_000, parseXLSXFile row loop) -/

/-- Model of the JS String.split method with a single-character separator. -/
def splitOnC (sep : Char) : List Char → List (List Char)
  | [] => [[]]
  | c :: rest =>
    if c = sep then [] :: splitOnC sep rest
    else
      match splitOnC sep rest with
      | [] => [[c]]
      | h :: t => (c :: h) :: t

/-- Value of a hexadecimal digit character. -/
def hexVal? (c : Char) : Option Nat :=
  if '0' ≤ c ∧ c ≤ '9' then some (c.toNat - 48)
  else if 'A' ≤ c ∧ c ≤ 'F' then some (c.toNat - 55)
  else if 'a' ≤ c ∧ c ≤ 'f' then some (c.toNat - 87)
  else none

/-- Percent-unescape to a byte sequence; characters outside escapes contribute
their UTF-8 bytes.  A malformed escape keeps its percent byte (the real
decodeURIComponent raises URIError there; no modeled input is malformed). -/
def percentToBytes : List Char → List Nat
  | [] => []
  | '%' :: h1 :: h2 :: rest =>
    match hexVal? h1, hexVal? h2 with
    | some a, some b => (16 * a + b) :: percentToBytes rest
    | _, _ => 37 :: percentToBytes (h1 :: h2 :: rest)
  | c :: rest => utf8Bytes c.toNat ++ percentToBytes rest

/-- Decode a UTF-8 byte sequence back to characters; truncated sequences give
the replacement character. -/
def utf8Decode : List Nat → List Char
  | [] => []
  | b :: rest =>
    if b < 128 then Char.ofNat b :: utf8Decode rest
    else if b < 224 then
      match rest with
      | b2 :: rest2 => Char.ofNat ((b - 192) * 64 + (b2 - 128)) :: utf8Decode rest2
      | [] => [Char.ofNat 65533]
    else if b < 240 then
      match rest with
      | b2 :: b3 :: rest3 =>
          Char.ofNat ((b - 224) * 4096 + (b2 - 128) * 64 + (b3 - 128)) :: utf8Decode rest3
      | _ => [Char.ofNat 65533]
    else
      match rest with
      | b2 :: b3 :: b4 :: rest4 =>
          Char.ofNat ((b - 240) * 262144 + (b2 - 128) * 4096 + (b3 - 128) * 64 + (b4 - 128)) ::
            utf8Decode rest4
      | _ => [Char.ofNat 65533]

/-- Model of the JS decodeURIComponent function. -/
def decodeURIComponentM (l : List Char) : List Char :=
  utf8Decode (percentToBytes l)

/-- Value decoding of URLSearchParams: plus signs become spaces, then
percent-decoding. -/
def spDecode (l : List Char) : List Char :=
  decodeURIComponentM (l.map (fun c => if c = '+' then ' ' else c))

/-- Model of the URLSearchParams constructor: split the query on ampersands,
drop empty pieces, split each piece at its first equals sign, decode both
sides. -/
def parseSearchParams (q : List Char) : List (List Char × List Char) :=
  ((splitOnC '&' q).filter (fun p => !p.isEmpty)).map (fun kv =>
    (spDecode (kv.takeWhile (fun c => c ≠ '=')),
     spDecode ((kv.dropWhile (fun c => c ≠ '=')).drop 1)))

/-- Model of the URLSearchParams get method: first value bound to the name. -/
def getParamFirst (q : List Char) (nm : List Char) : Option (List Char) :=
  ((parseSearchParams q).find? (fun p => p.1 == nm)).map (fun p => p.2)

/-- Model of the JS String.includes method: pat occurs contiguously in l. -/
def isInfixOfC (pat : List Char) : List Char → Bool
  | [] => pat.isEmpty
  | c :: rest => pat.isPrefixOf (c :: rest) || isInfixOfC pat rest

/-- The literal substring whose presence triggers the embedded-player unwrap
in parseXLSXFile. -/
def wrapperLit : List Char := "eduverseplay?videoUrl=".toList

/-- Output element of the row parser (interface XLSXContent). -/
structure XLSXContentL where
  url : List Char
  title : List Char
deriving DecidableEq, Repr

/-- JS truthiness of a string cell: non-empty. -/
def truthyCell (c : List Char) : Bool := !c.isEmpty

/-- Model of one iteration of the row loop of parseXLSXFile
(src/unnamed/part_000 lines 50-67): keep the row only if it has at least two
columns whose cells are truthy; trim both; unwrap the embedded-player URL when
the trimmed URL contains the wrapper literal.  Cells are modeled as strings
(the stringification of numeric cells is outside the model). -/
def parseRow? (row : List (List Char)) : Option XLSXContentL :=
  if 2 ≤ row.length ∧ truthyCell (row.getD 0 []) = true ∧ truthyCell (row.getD 1 []) = true then
    let url0 := trimChars (row.getD 0 [])
    let title := trimChars (row.getD 1 [])
    let url :=
      if isInfixOfC wrapperLit url0 then
        match getParamFirst ((splitOnC '?' url0).getD 1 []) "videoUrl".toList with
        | some v => decodeURIComponentM v
        | none => url0
      else url0
    some ⟨url, title⟩
  else none

/-- Model of the full row loop of parseXLSXFile: skip the header row, keep the
rows parseRow? accepts, in order. -/
def parseRows (rows : List (List (List Char))) : List XLSXContentL :=
  (rows.drop 1).filterMap parseRow?

/-! ### C6: row parser example -/

/-- C6 counterexample: the wrapper URL of the spec example does not contain
the literal eduverseplay trigger, so the row parser keeps it unchanged instead
of unwrapping it to the cdn URL the claim expects. -/
theorem c6_counterexample :
    parseRows [["h1".toList, "h2".toList],
      ["https://x/player?videoUrl=https%3A%2F%2Fcdn%2Fa.mp4".toList, "Lecture 1".toList],
      [[], []],
      ["u2".toList, "t2".toList]] ≠
    [⟨"https://cdn/a.mp4".toList, "Lecture 1".toList⟩,
     ⟨"u2".toList, "t2".toList⟩] := by
  decide

/-- C6 amended: row 0 is skipped, the blank row is dropped, cells are trimmed,
but the first data row keeps its raw URL because the unwrap only fires on the
literal eduverseplay wrapper; a row that does carry that wrapper is unwrapped
to the percent-decoded videoUrl parameter. -/
theorem c6_rows_parse :
    (parseRows [["h1".toList, "h2".toList],
      ["https://x/player?videoUrl=https%3A%2F%2Fcdn%2Fa.mp4".toList, "Lecture 1".toList],
      [[], []],
      ["u2".toList, "t2".toList]] =
      [⟨"https://x/player?videoUrl=https%3A%2F%2Fcdn%2Fa.mp4".toList, "Lecture 1".toList⟩,
       ⟨"u2".toList, "t2".toList⟩]) ∧
    (parseRows [["h1".toList, "h2".toList],
      ["https://x/eduverseplay?videoUrl=https%3A%2F%2Fcdn%2Fa.mp4".toList, "Lecture 1".toList],
      [[], []],
      [" u2 ".toList, " t2 ".toList]] =
      [⟨"https://cdn/a.mp4".toList, "Lecture 1".toList⟩,
       ⟨"u2".toList, "t2".toList⟩]) := by
  decide

/-! ### C10: the unwrap trigger is the literal wrapper substring -/

/-- C10: a kept row whose trimmed URL does not contain the literal substring
of the eduverseplay wrapper is passed through unchanged (only trimmed), even
if it carries a videoUrl query parameter; the literal wrapper is unwrapped. -/
theorem c10_unwrap_trigger :
    (∀ u t : List Char, truthyCell u = true → truthyCell t = true →
      isInfixOfC wrapperLit (trimChars u) = false →
      parseRow? [u, t] = some ⟨trimChars u, trimChars t⟩) ∧
    (parseRow? ["https://x/player?videoUrl=https%3A%2F%2Fcdn%2Fa.mp4".toList, "T".toList] =
      some ⟨"https://x/player?videoUrl=https%3A%2F%2Fcdn%2Fa.mp4".toList, "T".toList⟩) ∧
    (parseRow? ["https://x/eduverseplay?a=1&videoUrl=u".toList, "T".toList] =
      some ⟨"https://x/eduverseplay?a=1&videoUrl=u".toList, "T".toList⟩) ∧
    (parseRow? ["https://x/eduverseplay?videoUrl=https%3A%2F%2Fcdn%2Fa.mp4".toList, "T".toList] =
      some ⟨"https://cdn/a.mp4".toList, "T".toList⟩) := by
  refine ⟨?_, by decide, by decide, by decide⟩
  intro u t hu ht hinf
  simp [parseRow?, hu, ht, hinf]

/-- Witness for c10_unwrap_trigger at a concrete row. -/
theorem c10_unwrap_trigger_witness :
    parseRow? ["u1".toList, "t1".toList] =
      some ⟨trimChars "u1".toList, trimChars "t1".toList⟩ :=
  c10_unwrap_trigger.1 "u1".toList "t1".toList (by decide) (by decide) (by decide)

/-! ## Section classifier (src/unnamed/part_000, getSectionTypeFromName) -/

/-- The content-type enumeration of the tree model. -/
inductive CType where
  | video
  | notes
  | assignment
  | quiz
deriving DecidableEq, Repr

/-- Model of getSectionTypeFromName (src/unnamed/part_000 lines 16-32):
case-insensitive substring match, first keyword wins, defaulting to video. -/
def getSectionTypeFromName (name : List Char) : CType :=
  let lowerName := name.map Char.toLower
  if isInfixOfC "video".toList lowerName then .video
  else if isInfixOfC "notes".toList lowerName then .notes
  else if isInfixOfC "quiz".toList lowerName then .quiz
  else if isInfixOfC "dpp".toList lowerName || isInfixOfC "acp".toList lowerName ||
      isInfixOfC "wpp".toList lowerName || isInfixOfC "otp".toList lowerName ||
      isInfixOfC "assignment".toList lowerName then .assignment
  else .video

/-! ### C9: classifier behavior -/

/-- C9: the classifier is a total function giving the five documented example
results, and every name containing none of the keywords yields video. -/
theorem c9_classifier :
    (getSectionTypeFromName "Week1_DPP".toList = .assignment) ∧
    (getSectionTypeFromName "Quiz_Final".toList = .quiz) ∧
    (getSectionTypeFromName "Intro_Notes".toList = .notes) ∧
    (getSectionTypeFromName "Lecture_01".toList = .video) ∧
    (getSectionTypeFromName "Random123".toList = .video) ∧
    (∀ name : List Char,
      isInfixOfC "video".toList (name.map Char.toLower) = false →
      isInfixOfC "notes".toList (name.map Char.toLower) = false →
      isInfixOfC "quiz".toList (name.map Char.toLower) = false →
      isInfixOfC "dpp".toList (name.map Char.toLower) = false →
      isInfixOfC "acp".toList (name.map Char.toLower) = false →
      isInfixOfC "wpp".toList (name.map Char.toLower) = false →
      isInfixOfC "otp".toList (name.map Char.toLower) = false →
      isInfixOfC "assignment".toList (name.map Char.toLower) = false →
      getSectionTypeFromName name = .video) := by
  refine ⟨by decide, by decide, by decide, by decide, by decide, ?_⟩
  intro name h1 h2 h3 h4 h5 h6 h7 h8
  simp at h1 h2 h3 h4 h5 h6 h7 h8
  simp [getSectionTypeFromName, h1, h2, h3, h4, h5, h6, h7, h8]

/-- Witness for c9_classifier at a concrete keyword-free name. -/
theorem c9_classifier_witness : getSectionTypeFromName "Algebra".toList = .video :=
  c9_classifier.2.2.2.2.2 "Algebra".toList (by decide) (by decide) (by decide)
    (by decide) (by decide) (by decide) (by decide) (by decide)

/-! ## Folder structure aggregator (src/unnamed/part_000, processFolderStructure) -/

/-- Parsed data of one section file (interface ParsedSectionData). -/
structure ParsedSectionData where
  name : List Char
  type : CType
  contents : List XLSXContentL
deriving DecidableEq, Repr

/-- Aggregated subject: JS object of sections, modeled as an insertion-ordered
association list (JS objects keep first-encounter key order and updates keep
the original position). -/
structure SubjectAgg where
  name : List Char
  sections : List (List Char × ParsedSectionData)
deriving DecidableEq, Repr

/-- Aggregated batch: JS object of subjects. -/
structure BatchAgg where
  name : List Char
  subjects : List (List Char × SubjectAgg)
deriving DecidableEq, Repr

/-- Assignment to a key of a JS object: overwrite in place if present, append
otherwise. -/
def upsert {α : Type} (k : List Char) (v : α) : List (List Char × α) → List (List Char × α)
  | [] => [(k, v)]
  | (k2, w) :: rest => if k2 = k then (k2, v) :: rest else (k2, w) :: upsert k v rest

/-- Apply a function to the value bound to a key, if present. -/
def updateEntry {α : Type} (k : List Char) (f : α → α) :
    List (List Char × α) → List (List Char × α)
  | [] => []
  | (k2, w) :: rest => if k2 = k then (k2, f w) :: rest else (k2, w) :: updateEntry k f rest

/-- Input file of the aggregator: relative path segments, file name, and the
decoded sheet rows (none models a file the tabular decoder rejects). -/
structure FFile where
  relPath : List (List Char)
  fname : List Char
  sheet : Option (List (List (List Char)))
deriving DecidableEq, Repr

/-- Model of parseXLSXFile at the file level: an undecodable file is a
ParseError, a decodable one yields its parsed rows. -/
def parseXLSXFileM (f : FFile) : Except Unit (List XLSXContentL) :=
  match f.sheet with
  | some rows => .ok (parseRows rows)
  | none => .error ()

/-- Model of the JS String.replace method with a string pattern: replace the
first occurrence only. -/
def replaceFirstL (pat rep : List Char) : List Char → List Char
  | [] => []
  | c :: rest =>
    if pat.isPrefixOf (c :: rest) then rep ++ (c :: rest).drop pat.length
    else c :: replaceFirstL pat rep rest

/-- Model of the JS String.endsWith method. -/
def endsWithL (suf l : List Char) : Bool := suf.isSuffixOf l

/-- Model of one iteration of processFolderStructure
(src/unnamed/part_000 lines 107-147): process a file only if its relative
path has at least 3 segments and its name has the xlsx extension; create the
batch and subject objects if missing; on parse success bind the parsed section
to the filename minus extension (overwriting any earlier binding); on parse
failure record nothing further. -/
def processFile (acc : List (List Char × BatchAgg)) (f : FFile) :
    List (List Char × BatchAgg) :=
  if 3 ≤ f.relPath.length ∧ endsWithL ".xlsx".toList f.fname = true then
    let batchName := f.relPath.getD 0 []
    let subjectName := f.relPath.getD 1 []
    let fileName := replaceFirstL ".xlsx".toList [] f.fname
    let acc1 :=
      if (acc.lookup batchName).isSome then acc
      else acc ++ [(batchName, ⟨batchName, []⟩)]
    let acc2 := updateEntry batchName (fun b =>
      if (b.subjects.lookup subjectName).isSome then b
      else { b with subjects := b.subjects ++ [(subjectName, ⟨subjectName, []⟩)] }) acc1
    match parseXLSXFileM f with
    | .ok contents =>
        let newSec : ParsedSectionData := ⟨fileName, getSectionTypeFromName fileName, contents⟩
        let updSubject : SubjectAgg → SubjectAgg := fun s =>
          { s with sections := upsert fileName newSec s.sections }
        let updBatch : BatchAgg → BatchAgg := fun b =>
          { b with subjects := updateEntry subjectName updSubject b.subjects }
        updateEntry batchName updBatch acc2
    | .error _ => acc2
  else acc

/-- Model of processFolderStructure: fold over the files in order. -/
def processFolderStructure (files : List FFile) : List (List Char × BatchAgg) :=
  files.foldl processFile []

/-! ### C8: hierarchy-mode aggregation -/

/-- C8: a file whose relative path has fewer than 3 segments or whose name
lacks the xlsx extension leaves the aggregate untouched; processing two files
of the same subject deriving the same section name makes the later file fully
replace the earlier section (last-write-wins, a single section entry), with
grouping by segment 0, segment 1 and filename minus extension. -/
theorem c8_folder_aggregator :
    (∀ (acc : List (List Char × BatchAgg)) (f : FFile),
      ¬ (3 ≤ f.relPath.length ∧ endsWithL ".xlsx".toList f.fname = true) →
      processFile acc f = acc) ∧
    (processFolderStructure
      [⟨["BatchA".toList, "Math".toList, "Algebra.xlsx".toList], "Algebra.xlsx".toList,
        some [["h".toList, "h".toList], ["u1".toList, "t1".toList]]⟩,
       ⟨["BatchA".toList, "Math".toList, "Algebra.xlsx".toList], "Algebra.xlsx".toList,
        some [["h".toList, "h".toList], ["u2".toList, "t2".toList]]⟩,
       ⟨["BatchA".toList, "Physics".toList, "Optics DPP.xlsx".toList], "Optics DPP.xlsx".toList,
        some [["h".toList, "h".toList], ["u3".toList, "t3".toList]]⟩,
       ⟨["short.xlsx".toList], "short.xlsx".toList, some []⟩,
       ⟨["BatchA".toList, "Math".toList, "notes.txt".toList], "notes.txt".toList, some []⟩] =
      [("BatchA".toList,
        ⟨"BatchA".toList,
         [("Math".toList,
           ⟨"Math".toList,
            [("Algebra".toList,
              ⟨"Algebra".toList, CType.video, [⟨"u2".toList, "t2".toList⟩]⟩)]⟩),
          ("Physics".toList,
           ⟨"Physics".toList,
            [("Optics DPP".toList,
              ⟨"Optics DPP".toList, CType.assignment, [⟨"u3".toList, "t3".toList⟩]⟩)]⟩)]⟩)]) := by
  constructor
  · intro acc f h
    simp only [processFile, if_neg h]
  · decide

/-- Witness for c8_folder_aggregator at a concrete skipped file. -/
theorem c8_folder_aggregator_witness :
    processFile [] ⟨["short.xlsx".toList], "short.xlsx".toList, some []⟩ = [] :=
  c8_folder_aggregator.1 [] ⟨["short.xlsx".toList], "short.xlsx".toList, some []⟩ (by decide)

/-! ## Path-addressed mutation engine
(src/src/components/BatchEditor.tsx, handleNestedChange, lines 63-81)

The engine works over the JS object graph of the batch draft, modeled as a
value tree.  Property access on the undefined value throws in JS and is an
error of the model; access on any other non-container yields undefined.
Property assignment is defined on objects (creating the field if missing, at
the end, as JS does) and on arrays at a numeric index (padding with undefined
beyond the length, as JS does); assignment to a primitive throws in strict
mode and is an error of the model.  Named properties on arrays are outside
the model, no datum of the component is addressed that way. -/

/-- A JS value: string, number, boolean, undefined, object (insertion-ordered
fields), or array. -/
inductive Val where
  | str (s : String)
  | num (n : Int)
  | bool (b : Bool)
  | undefined
  | obj (fields : List (String × Val))
  | arr (elems : List Val)
deriving Repr

/-- A path segment: a field name or an array index. -/
inductive Seg where
  | fld (s : String)
  | idx (n : Nat)
deriving DecidableEq, Repr

/-- Field lookup in a JS object; a missing field reads as undefined. -/
def lookupField : List (String × Val) → String → Val
  | [], _ => .undefined
  | (k, v) :: rest, s => if k = s then v else lookupField rest s

/-- Field assignment in a JS object: overwrite in place, or append a new
field. -/
def setField : List (String × Val) → String → Val → List (String × Val)
  | [], s, v => [(s, v)]
  | (k, w) :: rest, s, v => if k = s then (k, v) :: rest else (k, w) :: setField rest s v

/-- Index assignment in a JS array: overwrite in range, pad with undefined
beyond the length. -/
def setIdx : List Val → Nat → Val → List Val
  | [], 0, v => [v]
  | [], n + 1, v => .undefined :: setIdx [] n v
  | _ :: xs, 0, v => v :: xs
  | x :: xs, n + 1, v => x :: setIdx xs n v

/-- One property read, with the JS error behavior: reading a property of
undefined throws. -/
def getProp : Val → Seg → Except Unit Val
  | .undefined, _ => .error ()
  | .obj fs, .fld s => .ok (lookupField fs s)
  | .obj fs, .idx n => .ok (lookupField fs (toString n))
  | .arr xs, .idx n => .ok (xs.getD n .undefined)
  | .arr _, .fld _ => .ok .undefined
  | _, _ => .ok .undefined

/-- One property assignment, with the JS strict-mode error behavior. -/
def setProp : Val → Seg → Val → Except Unit Val
  | .obj fs, .fld s, v => .ok (.obj (setField fs s v))
  | .obj fs, .idx n, v => .ok (.obj (setField fs (toString n) v))
  | .arr xs, .idx n, v => .ok (.arr (setIdx xs n v))
  | _, _, _ => .error ()

/-- Follow a path from the root, reading one property per segment. -/
def getPath : Val → List Seg → Except Unit Val
  | v, [] => .ok v
  | v, s :: rest => do
    let c ← getProp v s
    getPath c rest

/-- The navigation-and-assignment loop of handleNestedChange: walk to the
parent of the final segment and assign there, copying along the way (the pure
rendering of the in-place draft mutation).  The empty path mirrors the JS
behavior of indexing at minus one: the undefined key coerces to the string
form of undefined. -/
def updatePath : Val → List Seg → Val → Except Unit Val
  | root, [], value => setProp root (.fld "undefined") value
  | root, [s], value => setProp root s value
  | root, s :: rest, value => do
    let child ← getProp root s
    let child2 ← updatePath child rest value
    setProp root s child2

/-- The cascade body applied to one section object: overwrite the thumbnail
of every element of its contents array. -/
def cascadeSection (value : Val) (s : Val) : Except Unit Val := do
  let cs ← getProp s (.fld "contents")
  match cs with
  | .arr xs => do
    let xs2 ← xs.mapM (fun c => setProp c (.fld "thumbnail") value)
    setProp s (.fld "contents") (.arr xs2)
  | _ => .error ()

/-- The thumbnail cascade of handleNestedChange: for the addressed subject,
overwrite the thumbnail of every content under every section. -/
def runCascade (root : Val) (iseg : Seg) (value : Val) : Except Unit Val := do
  let subjects ← getProp root (.fld "subjects")
  let subj ← getProp subjects iseg
  let sections ← getProp subj (.fld "sections")
  match sections with
  | .arr ss => do
    let ss2 ← ss.mapM (cascadeSection value)
    let subj2 ← setProp subj (.fld "sections") (.arr ss2)
    let subjects2 ← setProp subjects iseg subj2
    setProp root (.fld "subjects") subjects2
  | _ => .error ()

/-- Model of handleNestedChange: the generic path assignment, followed by the
thumbnail cascade when the path has exactly three segments, starts at the
subjects field and ends at the thumbnail field. -/
def handleNestedChange (root : Val) (path : List Seg) (value : Val) : Except Unit Val := do
  let r ← updatePath root path value
  match path with
  | [s0, s1, s2] =>
    if s0 = Seg.fld "subjects" ∧ s2 = Seg.fld "thumbnail" then runCascade r s1 value
    else pure r
  | _ => pure r

/-! ## Tree model (src/src/types imported by BatchEditor.tsx)

The editor state batchData is a Batch without its id field; the other node
shapes follow the Subject, Section and Content interfaces.  The optional
Content thumbnail is encoded as an absent object field. -/

/-- A content leaf. -/
structure Content where
  id : String
  title : String
  url : String
  type : CType
  thumbnail : Option String
deriving DecidableEq, Repr

/-- A typed section of contents. -/
structure Section where
  id : String
  name : String
  type : CType
  contents : List Content
deriving DecidableEq, Repr

/-- A subject of sections. -/
structure Subject where
  id : String
  name : String
  thumbnail : String
  sections : List Section
deriving DecidableEq, Repr

/-- The editor state: a batch without its id. -/
structure Batch where
  name : String
  description : String
  thumbnail : String
  subjects : List Subject
  layout : String
  createdAt : Int
  isActive : Bool
  enrolledStudents : Int
deriving DecidableEq, Repr

/-- The string form of a content type. -/
def CType.toStr : CType → String
  | .video => "video"
  | .notes => "notes"
  | .assignment => "assignment"
  | .quiz => "quiz"

/-- Encoding of a content into the JS value model; an absent thumbnail is an
absent field (appended last on creation, so it sits last when present). -/
def encContent (c : Content) : Val :=
  .obj ([("id", .str c.id), ("title", .str c.title), ("url", .str c.url),
    ("type", .str c.type.toStr)] ++
    (match c.thumbnail with
     | some t => [("thumbnail", .str t)]
     | none => []))

/-- Encoding of a section. -/
def encSection (s : Section) : Val :=
  .obj [("id", .str s.id), ("name", .str s.name), ("type", .str s.type.toStr),
    ("contents", .arr (s.contents.map encContent))]

/-- Encoding of a subject. -/
def encSubject (s : Subject) : Val :=
  .obj [("id", .str s.id), ("name", .str s.name), ("thumbnail", .str s.thumbnail),
    ("sections", .arr (s.sections.map encSection))]

/-- Encoding of the batch editor state. -/
def encBatch (b : Batch) : Val :=
  .obj [("name", .str b.name), ("description", .str b.description),
    ("thumbnail", .str b.thumbnail), ("subjects", .arr (b.subjects.map encSubject)),
    ("layout", .str b.layout), ("createdAt", .num b.createdAt),
    ("isActive", .bool b.isActive), ("enrolledStudents", .num b.enrolledStudents)]

/-! ### Bridge lemmas between the encoders and the engine primitives -/

theorem exceptBind_ok {α β : Type} (a : α) (f : α → Except Unit β) :
    ((Except.ok a : Except Unit α) >>= f) = f a := rfl

theorem exceptBind_error {α β : Type} (f : α → Except Unit β) :
    ((Except.error () : Except Unit α) >>= f) = .error () := rfl

theorem exceptPure {α : Type} (a : α) : (pure a : Except Unit α) = .ok a := rfl

theorem getProp_encBatch_subjects (b : Batch) :
    getProp (encBatch b) (.fld "subjects") = .ok (.arr (b.subjects.map encSubject)) := rfl

theorem setProp_encBatch_subjects (b : Batch) (l : List Subject) :
    setProp (encBatch b) (.fld "subjects") (.arr (l.map encSubject)) =
      .ok (encBatch { b with subjects := l }) := rfl

theorem getProp_encSubject_sections (s : Subject) :
    getProp (encSubject s) (.fld "sections") = .ok (.arr (s.sections.map encSection)) := rfl

theorem setProp_encSubject_sections (s : Subject) (l : List Section) :
    setProp (encSubject s) (.fld "sections") (.arr (l.map encSection)) =
      .ok (encSubject { s with sections := l }) := rfl

theorem setProp_encSubject_thumbnail (s : Subject) (v : String) :
    setProp (encSubject s) (.fld "thumbnail") (.str v) =
      .ok (encSubject { s with thumbnail := v }) := rfl

theorem getProp_encSection_contents (s : Section) :
    getProp (encSection s) (.fld "contents") = .ok (.arr (s.contents.map encContent)) := rfl

theorem setProp_encSection_contents (s : Section) (l : List Content) :
    setProp (encSection s) (.fld "contents") (.arr (l.map encContent)) =
      .ok (encSection { s with contents := l }) := rfl

theorem setProp_encContent_thumbnail (c : Content) (v : String) :
    setProp (encContent c) (.fld "thumbnail") (.str v) =
      .ok (encContent { c with thumbnail := some v }) := by
  cases c with
  | mk id title url ty th => cases th <;> rfl

theorem setIdx_eq_set (xs : List Val) (i : Nat) (v : Val) (h : i < xs.length) :
    setIdx xs i v = xs.set i v := by
  induction xs generalizing i with
  | nil => simp at h
  | cons x xs ih =>
    cases i with
    | zero => rfl
    | succ n =>
      show x :: setIdx xs n v = x :: xs.set n v
      rw [ih n (by simpa using h)]

theorem getProp_arr_map {α : Type} (f : α → Val) (l : List α) (i : Nat) (h : i < l.length) :
    getProp (.arr (l.map f)) (.idx i) = .ok (f l[i]) := by
  have hm : i < (l.map f).length := by simpa using h
  simp [getProp, List.getD_eq_getElem _ _ hm]
  rw [List.getElem?_eq_getElem h]
  rfl

theorem setProp_arr_map {α : Type} (f : α → Val) (l : List α) (i : Nat) (h : i < l.length)
    (x : α) :
    setProp (.arr (l.map f)) (.idx i) (f x) = .ok (.arr ((l.set i x).map f)) := by
  have hm : i < (l.map f).length := by simpa using h
  simp [setProp, setIdx_eq_set _ _ _ hm, List.map_set]

theorem mapM_ok_of_map {α : Type} (g : α → Val) (f : Val → Except Unit Val) (h2 : α → Val)
    (l : List α) (H : ∀ a ∈ l, f (g a) = .ok (h2 a)) :
    (l.map g).mapM f = .ok (l.map h2) := by
  induction l with
  | nil => rfl
  | cons a l ih =>
    have ha : f (g a) = .ok (h2 a) := H a (by simp)
    have ih2 := ih (fun a2 ha2 => H a2 (by simp [ha2]))
    simp only [List.map_cons, List.mapM_cons f, ha, ih2, exceptBind_ok, exceptPure]

/-! ### C1: the subject-thumbnail cascade -/

/-- Expected effect of the cascade on one content. -/
def cascadeContent (v : String) (c : Content) : Content := { c with thumbnail := some v }

/-- Expected effect of the cascade on one section. -/
def cascadeSectionS (v : String) (s : Section) : Section :=
  { s with contents := s.contents.map (cascadeContent v) }

/-- Expected effect of a subject-thumbnail edit on the subject: new thumbnail
and cascaded contents. -/
def cascadeSubjectS (v : String) (s : Subject) : Subject :=
  { s with
    thumbnail := v
    sections := s.sections.map (cascadeSectionS v) }

/-- A default subject for out-of-range reads in statement helpers. -/
def defSubject : Subject := ⟨"", "", "", []⟩

/-- The batch after only the direct thumbnail assignment of subject i. -/
def subjThumbSet (b : Batch) (i : Nat) (V : String) : Batch :=
  { b with
    subjects := b.subjects.set i { b.subjects.getD i defSubject with thumbnail := V } }

/-- The batch after the full subject-thumbnail update including the cascade. -/
def subjCascaded (b : Batch) (i : Nat) (V : String) : Batch :=
  { b with
    subjects := b.subjects.set i (cascadeSubjectS V (b.subjects.getD i defSubject)) }

theorem cascadeSection_enc (v : String) (s : Section) :
    cascadeSection (.str v) (encSection s) = .ok (encSection (cascadeSectionS v s)) := by
  have hmap := mapM_ok_of_map encContent (fun c => setProp c (.fld "thumbnail") (.str v))
    (fun c => encContent (cascadeContent v c)) s.contents
    (fun a _ => setProp_encContent_thumbnail a v)
  simp only [cascadeSection, getProp_encSection_contents, exceptBind_ok]
  rw [hmap]
  simp only [exceptBind_ok]
  rw [show s.contents.map (fun c => encContent (cascadeContent v c)) =
      (s.contents.map (cascadeContent v)).map encContent from by rw [List.map_map]; rfl]
  exact setProp_encSection_contents s (s.contents.map (cascadeContent v))

theorem updatePath_cascade_path (b : Batch) (i : Nat) (V : String)
    (h : i < b.subjects.length) :
    updatePath (encBatch b) [.fld "subjects", .idx i, .fld "thumbnail"] (.str V) =
      .ok (encBatch (subjThumbSet b i V)) := by
  have hd : b.subjects.getD i defSubject = b.subjects[i] := List.getD_eq_getElem _ _ h
  simp only [subjThumbSet, hd]
  simp only [updatePath, getProp_encBatch_subjects, exceptBind_ok,
    getProp_arr_map encSubject b.subjects i h, setProp_encSubject_thumbnail,
    setProp_arr_map encSubject b.subjects i h { b.subjects[i] with thumbnail := V },
    setProp_encBatch_subjects]

theorem runCascade_enc (b : Batch) (i : Nat) (V : String) (h : i < b.subjects.length) :
    runCascade (encBatch b) (.idx i) (.str V) =
      .ok (encBatch
        { b with
          subjects := b.subjects.set i
            { b.subjects[i] with
              sections := b.subjects[i].sections.map (cascadeSectionS V) } }) := by
  have hmap := mapM_ok_of_map encSection (cascadeSection (.str V))
    (fun s => encSection (cascadeSectionS V s)) (b.subjects[i]).sections
    (fun a _ => cascadeSection_enc V a)
  simp only [runCascade, getProp_encBatch_subjects, exceptBind_ok,
    getProp_arr_map encSubject b.subjects i h, getProp_encSubject_sections]
  rw [hmap]
  simp only [exceptBind_ok]
  rw [show (b.subjects[i]).sections.map (fun s => encSection (cascadeSectionS V s)) =
      ((b.subjects[i]).sections.map (cascadeSectionS V)).map encSection from by
    rw [List.map_map]; rfl]
  rw [setProp_encSubject_sections]
  simp only [exceptBind_ok]
  rw [setProp_arr_map encSubject b.subjects i h
    { b.subjects[i] with sections := (b.subjects[i]).sections.map (cascadeSectionS V) }]
  simp only [exceptBind_ok]
  rw [setProp_encBatch_subjects]

theorem runCascade_after_set (b : Batch) (i : Nat) (V : String)
    (h : i < b.subjects.length) :
    runCascade (encBatch (subjThumbSet b i V)) (.idx i) (.str V) =
      .ok (encBatch (subjCascaded b i V)) := by
  have hd : b.subjects.getD i defSubject = b.subjects[i] := List.getD_eq_getElem _ _ h
  have h1 : i < (subjThumbSet b i V).subjects.length := by
    simp [subjThumbSet, h]
  have hget : (subjThumbSet b i V).subjects[i] = { b.subjects[i] with thumbnail := V } := by
    simp only [subjThumbSet, hd]
    apply List.getElem_set_self
  rw [runCascade_enc _ i V h1]
  simp only [hget]
  simp only [subjThumbSet, subjCascaded, hd]
  rw [List.set_set]
  rfl

/-- C1: updating the path subjects, i, thumbnail to a value V sets the
thumbnail of subject i to V and, in the same update, the thumbnail of every
content under every section of subject i to V, while every other subject is
unchanged. -/
theorem c1_subject_thumbnail_cascade (b : Batch) (i : Nat) (V : String)
    (h : i < b.subjects.length) :
    handleNestedChange (encBatch b) [.fld "subjects", .idx i, .fld "thumbnail"] (.str V) =
      .ok (encBatch (subjCascaded b i V)) ∧
    (∀ j, j ≠ i → (subjCascaded b i V).subjects[j]? = b.subjects[j]?) ∧
    (cascadeSubjectS V (b.subjects.getD i defSubject)).thumbnail = V ∧
    (∀ sec ∈ (cascadeSubjectS V (b.subjects.getD i defSubject)).sections,
      ∀ c ∈ sec.contents, c.thumbnail = some V) := by
  refine ⟨?_, ?_, rfl, ?_⟩
  · simp only [handleNestedChange, updatePath_cascade_path b i V h, exceptBind_ok]
    rw [if_pos ⟨trivial, trivial⟩]
    exact runCascade_after_set b i V h
  · intro j hj
    simp only [subjCascaded]
    exact List.getElem?_set_ne hj.symm
  · intro sec hsec c hc
    simp only [cascadeSubjectS, List.mem_map] at hsec
    obtain ⟨s0, _, rfl⟩ := hsec
    simp only [cascadeSectionS, List.mem_map] at hc
    obtain ⟨c0, _, rfl⟩ := hc
    rfl

/-- Witness for c1_subject_thumbnail_cascade at a concrete two-subject batch. -/
theorem c1_subject_thumbnail_cascade_witness :
    handleNestedChange
      (encBatch ⟨"B", "", "bt",
        [⟨"s1", "S1", "t1", [⟨"sec1", "Sec1", .video, [⟨"c1", "T1", "u1", .video, none⟩]⟩]⟩,
         ⟨"s2", "S2", "t2", [⟨"sec2", "Sec2", .video, [⟨"c2", "T2", "u2", .video, some "x"⟩]⟩]⟩],
        "standard-grid", 0, true, 0⟩)
      [.fld "subjects", .idx 0, .fld "thumbnail"] (.str "V") =
      .ok (encBatch (subjCascaded
        ⟨"B", "", "bt",
          [⟨"s1", "S1", "t1", [⟨"sec1", "Sec1", .video, [⟨"c1", "T1", "u1", .video, none⟩]⟩]⟩,
           ⟨"s2", "S2", "t2", [⟨"sec2", "Sec2", .video, [⟨"c2", "T2", "u2", .video, some "x"⟩]⟩]⟩],
          "standard-grid", 0, true, 0⟩ 0 "V")) :=
  (c1_subject_thumbnail_cascade
    ⟨"B", "", "bt",
      [⟨"s1", "S1", "t1", [⟨"sec1", "Sec1", .video, [⟨"c1", "T1", "u1", .video, none⟩]⟩]⟩,
       ⟨"s2", "S2", "t2", [⟨"sec2", "Sec2", .video, [⟨"c2", "T2", "u2", .video, some "x"⟩]⟩]⟩],
      "standard-grid", 0, true, 0⟩ 0 "V" (by decide)).1

/-! ### C2: structural sharing of the generic update -/

/-- Two paths diverge: equal segments up to some depth, then a different
segment on each side.  The subtree addressed by the second path is then not
on the root-to-target path of the first. -/
inductive Diverges : List Seg → List Seg → Prop where
  | head (p q : Seg) (P Q : List Seg) : p ≠ q → Diverges (p :: P) (q :: Q)
  | tail (s : Seg) (P Q : List Seg) : Diverges P Q → Diverges (s :: P) (s :: Q)

/-- A read path is well-typed for a tree: field segments into objects, index
segments into arrays, at every step. -/
def fitsGet : Val → List Seg → Bool
  | _, [] => true
  | v, s :: rest =>
    match v, s with
    | .obj fs, .fld key => fitsGet (lookupField fs key) rest
    | .arr xs, .idx n => fitsGet (xs.getD n .undefined) rest
    | _, _ => false

/-- An update path is well-typed: as fitsGet for the leading segments, with a
kind-matching final segment whose target need not exist yet. -/
def fitsUpd : Val → List Seg → Bool
  | _, [] => false
  | v, [s] =>
    match v, s with
    | .obj _, .fld _ => true
    | .arr _, .idx _ => true
    | _, _ => false
  | v, s :: rest =>
    match v, s with
    | .obj fs, .fld key => fitsUpd (lookupField fs key) rest
    | .arr xs, .idx n => fitsUpd (xs.getD n .undefined) rest
    | _, _ => false

theorem lookupField_setField_self (fs : List (String × Val)) (s : String) (v : Val) :
    lookupField (setField fs s v) s = v := by
  induction fs with
  | nil => simp [setField, lookupField]
  | cons kv rest ih =>
    obtain ⟨k, w⟩ := kv
    by_cases hk : k = s
    · simp [setField, lookupField, hk]
    · simp [setField, lookupField, hk, ih]

theorem lookupField_setField_ne (fs : List (String × Val)) (s t : String) (v : Val)
    (h : t ≠ s) :
    lookupField (setField fs s v) t = lookupField fs t := by
  induction fs with
  | nil => simp [setField, lookupField, Ne.symm h]
  | cons kv rest ih =>
    obtain ⟨k, w⟩ := kv
    by_cases hk : k = s
    · subst hk
      simp [setField, lookupField, Ne.symm h]
    · simp only [setField, if_neg hk, lookupField]
      by_cases hkt : k = t
      · simp [hkt]
      · simp [hkt, ih]

theorem getD_setIdx_self (xs : List Val) (i : Nat) (v : Val) :
    (setIdx xs i v).getD i .undefined = v := by
  induction i generalizing xs with
  | zero => cases xs <;> rfl
  | succ n ih =>
    cases xs with
    | nil => simpa [setIdx] using ih []
    | cons x t => simpa [setIdx] using ih t

theorem getD_setIdx_ne (xs : List Val) (i j : Nat) (v : Val) (h : j ≠ i) :
    (setIdx xs i v).getD j .undefined = xs.getD j .undefined := by
  induction i generalizing xs j with
  | zero =>
    cases xs with
    | nil =>
      cases j with
      | zero => exact absurd rfl h
      | succ m => simp [setIdx]
    | cons x t =>
      cases j with
      | zero => exact absurd rfl h
      | succ m => simp [setIdx]
  | succ n ih =>
    cases xs with
    | nil =>
      cases j with
      | zero => simp [setIdx]
      | succ m =>
        simpa [setIdx] using ih [] m (by omega)
    | cons x t =>
      cases j with
      | zero => simp [setIdx]
      | succ m =>
        simpa [setIdx] using ih t m (by omega)

theorem updatePath_obj_shape (fs : List (String × Val)) (s : String) (rest : List Seg)
    (x r : Val) (h : updatePath (.obj fs) (.fld s :: rest) x = .ok r) :
    ∃ y, r = .obj (setField fs s y) := by
  cases rest with
  | nil =>
    refine ⟨x, ?_⟩
    simpa [updatePath, setProp] using h.symm
  | cons a t =>
    cases hres : updatePath (lookupField fs s) (a :: t) x with
    | error e =>
      rw [show updatePath (.obj fs) (.fld s :: a :: t) x =
        Except.bind (updatePath (lookupField fs s) (a :: t) x)
          (fun c2 => setProp (.obj fs) (.fld s) c2) from rfl, hres] at h
      exact absurd h (by simp [Except.bind])
    | ok c2 =>
      refine ⟨c2, ?_⟩
      rw [show updatePath (.obj fs) (.fld s :: a :: t) x =
        Except.bind (updatePath (lookupField fs s) (a :: t) x)
          (fun c2 => setProp (.obj fs) (.fld s) c2) from rfl, hres] at h
      simpa [Except.bind, setProp] using h.symm

theorem updatePath_arr_shape (xs : List Val) (n : Nat) (rest : List Seg)
    (x r : Val) (h : updatePath (.arr xs) (.idx n :: rest) x = .ok r) :
    ∃ y, r = .arr (setIdx xs n y) := by
  cases rest with
  | nil =>
    refine ⟨x, ?_⟩
    simpa [updatePath, setProp] using h.symm
  | cons a t =>
    cases hres : updatePath (xs.getD n .undefined) (a :: t) x with
    | error e =>
      rw [show updatePath (.arr xs) (.idx n :: a :: t) x =
        Except.bind (updatePath (xs.getD n .undefined) (a :: t) x)
          (fun c2 => setProp (.arr xs) (.idx n) c2) from rfl, hres] at h
      exact absurd h (by simp [Except.bind])
    | ok c2 =>
      refine ⟨c2, ?_⟩
      rw [show updatePath (.arr xs) (.idx n :: a :: t) x =
        Except.bind (updatePath (xs.getD n .undefined) (a :: t) x)
          (fun c2 => setProp (.arr xs) (.idx n) c2) from rfl, hres] at h
      simpa [Except.bind, setProp] using h.symm

theorem Diverges.shapes {P Q : List Seg} (h : Diverges P Q) :
    ∃ a t b u, P = a :: t ∧ Q = b :: u := by
  cases h with
  | head p q P Q hpq => exact ⟨p, P, q, Q, rfl, rfl⟩
  | tail s P Q h => exact ⟨s, P, s, Q, rfl, rfl⟩

/-- The frame property of the pure rendering of the navigation loop: a
successful update along a well-typed path leaves the subtree addressed by any
well-typed diverging path unchanged. -/
theorem updatePath_frame {P Q : List Seg} (hD : Diverges P Q) :
    ∀ (v r x : Val), fitsUpd v P = true → fitsGet v Q = true →
      updatePath v P x = .ok r → getPath r Q = getPath v Q := by
  induction hD with
  | head p q P' Q' hpq =>
    intro v r x hP hQ hu
    cases v with
    | undefined => exact absurd hQ (by simp [fitsGet])
    | str s0 => exact absurd hQ (by simp [fitsGet])
    | num n0 => exact absurd hQ (by simp [fitsGet])
    | bool b0 => exact absurd hQ (by simp [fitsGet])
    | obj fs =>
      cases q with
      | idx n => exact absurd hQ (by simp [fitsGet])
      | fld qs =>
        cases p with
        | idx n => exact absurd hP (by cases P' <;> simp [fitsUpd])
        | fld ps =>
          obtain ⟨y, rfl⟩ := updatePath_obj_shape fs ps P' x r hu
          have hne : qs ≠ ps := fun e => hpq (by rw [e])
          simp [getPath, getProp, lookupField_setField_ne fs ps qs y hne]
    | arr xs =>
      cases q with
      | fld qs => exact absurd hQ (by simp [fitsGet])
      | idx qn =>
        cases p with
        | fld ps => exact absurd hP (by cases P' <;> simp [fitsUpd])
        | idx pn =>
          obtain ⟨y, rfl⟩ := updatePath_arr_shape xs pn P' x r hu
          have hne : qn ≠ pn := fun e => hpq (by rw [e])
          have e1 : getPath (Val.arr (setIdx xs pn y)) (Seg.idx qn :: Q') =
              getPath ((setIdx xs pn y).getD qn Val.undefined) Q' := rfl
          have e2 : getPath (Val.arr xs) (Seg.idx qn :: Q') =
              getPath (xs.getD qn Val.undefined) Q' := rfl
          rw [e1, e2, getD_setIdx_ne xs pn qn y hne]
  | tail s P' Q' hD ih =>
    intro v r x hP hQ hu
    obtain ⟨a, t, b, u, rfl, rfl⟩ := hD.shapes
    cases v with
    | undefined => exact absurd hQ (by simp [fitsGet])
    | str s0 => exact absurd hQ (by simp [fitsGet])
    | num n0 => exact absurd hQ (by simp [fitsGet])
    | bool b0 => exact absurd hQ (by simp [fitsGet])
    | obj fs =>
      cases s with
      | idx n => exact absurd hQ (by simp [fitsGet])
      | fld key =>
        cases hres : updatePath (lookupField fs key) (a :: t) x with
        | error e =>
          rw [show updatePath (.obj fs) (.fld key :: a :: t) x =
            Except.bind (updatePath (lookupField fs key) (a :: t) x)
              (fun c2 => setProp (.obj fs) (.fld key) c2) from rfl, hres] at hu
          exact absurd hu (by simp [Except.bind])
        | ok c2 =>
          have hr : r = .obj (setField fs key c2) := by
            rw [show updatePath (.obj fs) (.fld key :: a :: t) x =
              Except.bind (updatePath (lookupField fs key) (a :: t) x)
                (fun c2 => setProp (.obj fs) (.fld key) c2) from rfl, hres] at hu
            simpa [Except.bind, setProp] using hu.symm
          subst hr
          have hP' : fitsUpd (lookupField fs key) (a :: t) = true := by
            simpa [fitsUpd] using hP
          have hQ' : fitsGet (lookupField fs key) (b :: u) = true := by
            simpa [fitsGet] using hQ
          have hrec := ih (lookupField fs key) c2 x hP' hQ' hres
          have e1 : getPath (Val.obj (setField fs key c2)) (Seg.fld key :: b :: u) =
              getPath c2 (b :: u) := by
            show Except.bind (Except.ok (lookupField (setField fs key c2) key))
                (fun c => getPath c (b :: u)) = getPath c2 (b :: u)
            rw [lookupField_setField_self]
            rfl
          have e2 : getPath (Val.obj fs) (Seg.fld key :: b :: u) =
              getPath (lookupField fs key) (b :: u) := rfl
          rw [e1, e2]
          exact hrec
    | arr xs =>
      cases s with
      | fld key => exact absurd hQ (by simp [fitsGet])
      | idx n =>
        cases hres : updatePath (xs.getD n .undefined) (a :: t) x with
        | error e =>
          rw [show updatePath (.arr xs) (.idx n :: a :: t) x =
            Except.bind (updatePath (xs.getD n .undefined) (a :: t) x)
              (fun c2 => setProp (.arr xs) (.idx n) c2) from rfl, hres] at hu
          exact absurd hu (by simp [Except.bind])
        | ok c2 =>
          have hr : r = .arr (setIdx xs n c2) := by
            rw [show updatePath (.arr xs) (.idx n :: a :: t) x =
              Except.bind (updatePath (xs.getD n .undefined) (a :: t) x)
                (fun c2 => setProp (.arr xs) (.idx n) c2) from rfl, hres] at hu
            simpa [Except.bind, setProp] using hu.symm
          subst hr
          have hP' : fitsUpd (xs.getD n .undefined) (a :: t) = true := by
            simpa [fitsUpd] using hP
          have hQ' : fitsGet (xs.getD n .undefined) (b :: u) = true := by
            simpa [fitsGet] using hQ
          have hrec := ih (xs.getD n .undefined) c2 x hP' hQ' hres
          have e1 : getPath (Val.arr (setIdx xs n c2)) (Seg.idx n :: b :: u) =
              getPath c2 (b :: u) := by
            show Except.bind (Except.ok ((setIdx xs n c2).getD n Val.undefined))
                (fun c => getPath c (b :: u)) = getPath c2 (b :: u)
            rw [getD_setIdx_self]
            rfl
          have e2 : getPath (Val.arr xs) (Seg.idx n :: b :: u) =
              getPath (xs.getD n Val.undefined) (b :: u) := rfl
          rw [e1, e2]
          exact hrec

theorem updatePath_undef (P : List Seg) (hne : P ≠ []) (x : Val) :
    updatePath .undefined P x = .error () := by
  cases P with
  | nil => exact absurd rfl hne
  | cons s rest =>
    cases rest with
    | nil => cases s <;> rfl
    | cons a t => rfl

/-- After a successful update, reading back the updated path yields the new
value. -/
theorem updatePath_get : ∀ (P : List Seg) (v r x : Val), P ≠ [] →
    updatePath v P x = .ok r → getPath r P = .ok x
  | [], _, _, _, hne, _ => absurd rfl hne
  | [s], v, r, x, _, hu => by
    cases v with
    | obj fs =>
      cases s with
      | fld key =>
        have hr : r = .obj (setField fs key x) := by
          simpa [updatePath, setProp] using hu.symm
        subst hr
        show Except.bind (Except.ok (lookupField (setField fs key x) key))
          (fun c => getPath c []) = .ok x
        rw [lookupField_setField_self]
        rfl
      | idx n =>
        have hr : r = .obj (setField fs (toString n) x) := by
          simpa [updatePath, setProp] using hu.symm
        subst hr
        show Except.bind (Except.ok (lookupField (setField fs (toString n) x) (toString n)))
          (fun c => getPath c []) = .ok x
        rw [lookupField_setField_self]
        rfl
    | arr xs =>
      cases s with
      | idx n =>
        have hr : r = .arr (setIdx xs n x) := by
          simpa [updatePath, setProp] using hu.symm
        subst hr
        show Except.bind (Except.ok ((setIdx xs n x).getD n Val.undefined))
          (fun c => getPath c []) = .ok x
        rw [getD_setIdx_self]
        rfl
      | fld key => exact absurd hu (by simp [updatePath, setProp])
    | undefined => exact absurd hu (by cases s <;> simp [updatePath, setProp])
    | str s0 => exact absurd hu (by cases s <;> simp [updatePath, setProp])
    | num n0 => exact absurd hu (by cases s <;> simp [updatePath, setProp])
    | bool b0 => exact absurd hu (by cases s <;> simp [updatePath, setProp])
  | s :: a :: t, v, r, x, _, hu => by
    cases v with
    | undefined =>
      exact absurd hu (by rw [updatePath_undef (s :: a :: t) (by simp) x]; simp)
    | str s0 =>
      exact absurd hu (by
        rw [show updatePath (.str s0) (s :: a :: t) x =
          Except.bind (updatePath .undefined (a :: t) x)
            (fun c2 => setProp (.str s0) s c2) from by cases s <;> rfl,
          updatePath_undef (a :: t) (by simp) x]
        simp [Except.bind])
    | num n0 =>
      exact absurd hu (by
        rw [show updatePath (.num n0) (s :: a :: t) x =
          Except.bind (updatePath .undefined (a :: t) x)
            (fun c2 => setProp (.num n0) s c2) from by cases s <;> rfl,
          updatePath_undef (a :: t) (by simp) x]
        simp [Except.bind])
    | bool b0 =>
      exact absurd hu (by
        rw [show updatePath (.bool b0) (s :: a :: t) x =
          Except.bind (updatePath .undefined (a :: t) x)
            (fun c2 => setProp (.bool b0) s c2) from by cases s <;> rfl,
          updatePath_undef (a :: t) (by simp) x]
        simp [Except.bind])
    | obj fs =>
      cases s with
      | fld key =>
        cases hres : updatePath (lookupField fs key) (a :: t) x with
        | error e =>
          rw [show updatePath (.obj fs) (.fld key :: a :: t) x =
            Except.bind (updatePath (lookupField fs key) (a :: t) x)
              (fun c2 => setProp (.obj fs) (.fld key) c2) from rfl, hres] at hu
          exact absurd hu (by simp [Except.bind])
        | ok c2 =>
          have hr : r = .obj (setField fs key c2) := by
            rw [show updatePath (.obj fs) (.fld key :: a :: t) x =
              Except.bind (updatePath (lookupField fs key) (a :: t) x)
                (fun c2 => setProp (.obj fs) (.fld key) c2) from rfl, hres] at hu
            simpa [Except.bind, setProp] using hu.symm
          subst hr
          have hrec := updatePath_get (a :: t) (lookupField fs key) c2 x (by simp) hres
          show Except.bind (Except.ok (lookupField (setField fs key c2) key))
            (fun c => getPath c (a :: t)) = .ok x
          rw [lookupField_setField_self]
          exact hrec
      | idx n =>
        cases hres : updatePath (lookupField fs (toString n)) (a :: t) x with
        | error e =>
          rw [show updatePath (.obj fs) (.idx n :: a :: t) x =
            Except.bind (updatePath (lookupField fs (toString n)) (a :: t) x)
              (fun c2 => setProp (.obj fs) (.idx n) c2) from rfl, hres] at hu
          exact absurd hu (by simp [Except.bind])
        | ok c2 =>
          have hr : r = .obj (setField fs (toString n) c2) := by
            rw [show updatePath (.obj fs) (.idx n :: a :: t) x =
              Except.bind (updatePath (lookupField fs (toString n)) (a :: t) x)
                (fun c2 => setProp (.obj fs) (.idx n) c2) from rfl, hres] at hu
            simpa [Except.bind, setProp] using hu.symm
          subst hr
          have hrec := updatePath_get (a :: t) (lookupField fs (toString n)) c2 x (by simp) hres
          show Except.bind (Except.ok (lookupField (setField fs (toString n) c2) (toString n)))
            (fun c => getPath c (a :: t)) = .ok x
          rw [lookupField_setField_self]
          exact hrec
    | arr xs =>
      cases s with
      | idx n =>
        cases hres : updatePath (xs.getD n .undefined) (a :: t) x with
        | error e =>
          rw [show updatePath (.arr xs) (.idx n :: a :: t) x =
            Except.bind (updatePath (xs.getD n .undefined) (a :: t) x)
              (fun c2 => setProp (.arr xs) (.idx n) c2) from rfl, hres] at hu
          exact absurd hu (by simp [Except.bind])
        | ok c2 =>
          have hr : r = .arr (setIdx xs n c2) := by
            rw [show updatePath (.arr xs) (.idx n :: a :: t) x =
              Except.bind (updatePath (xs.getD n .undefined) (a :: t) x)
                (fun c2 => setProp (.arr xs) (.idx n) c2) from rfl, hres] at hu
            simpa [Except.bind, setProp] using hu.symm
          subst hr
          have hrec := updatePath_get (a :: t) (xs.getD n .undefined) c2 x (by simp) hres
          show Except.bind (Except.ok ((setIdx xs n c2).getD n Val.undefined))
            (fun c => getPath c (a :: t)) = .ok x
          rw [getD_setIdx_self]
          exact hrec
      | fld key =>
        exact absurd hu (by
          rw [show updatePath (.arr xs) (.fld key :: a :: t) x =
            Except.bind (updatePath .undefined (a :: t) x)
              (fun c2 => setProp (.arr xs) (.fld key) c2) from rfl,
            updatePath_undef (a :: t) (by simp) x]
          simp [Except.bind])

/-- Outside the cascade shape, handleNestedChange is exactly the generic
path assignment. -/
theorem handleNested_noncascade (v : Val) (P : List Seg) (x : Val)
    (hshape : ∀ s0 s1 s2, P = [s0, s1, s2] →
      ¬ (s0 = Seg.fld "subjects" ∧ s2 = Seg.fld "thumbnail")) :
    handleNestedChange v P x = updatePath v P x := by
  unfold handleNestedChange
  cases hres : updatePath v P x with
  | error e =>
    cases e
    rfl
  | ok w =>
    show Except.bind (Except.ok w) _ = Except.ok w
    rcases P with _ | ⟨a, _ | ⟨b, _ | ⟨c, _ | ⟨d, t⟩⟩⟩⟩
    · rfl
    · rfl
    · rfl
    · show (if a = Seg.fld "subjects" ∧ c = Seg.fld "thumbnail"
          then runCascade w b x else pure w) = Except.ok w
      rw [if_neg (hshape a b c rfl)]
      rfl
    · rfl

/-- Projection used to compare computed subtrees concretely: the string held
at an ok string result. -/
def okStr : Except Unit Val → Option String
  | .ok (.str s) => some s
  | _ => none

/-- C2 counterexample: for the cascade-shaped path subjects, 0, thumbnail,
the content-thumbnail subtree diverges from the update path (it is not on the
root-to-target path) yet its value changes from old to V, so the universal
structural-sharing contract fails on the cascade path. -/
theorem c2_counterexample :
    Diverges [Seg.fld "subjects", Seg.idx 0, Seg.fld "thumbnail"]
      [Seg.fld "subjects", Seg.idx 0, Seg.fld "sections", Seg.idx 0, Seg.fld "contents",
        Seg.idx 0, Seg.fld "thumbnail"] ∧
    okStr (Except.bind
      (handleNestedChange
        (encBatch ⟨"B", "", "bt",
          [⟨"s1", "S1", "t1", [⟨"sec1", "Sec1", .video, [⟨"c1", "T1", "u1", .video, some "old"⟩]⟩]⟩],
          "standard-grid", 0, true, 0⟩)
        [Seg.fld "subjects", Seg.idx 0, Seg.fld "thumbnail"] (.str "V"))
      (fun r => getPath r [Seg.fld "subjects", Seg.idx 0, Seg.fld "sections", Seg.idx 0,
        Seg.fld "contents", Seg.idx 0, Seg.fld "thumbnail"])) = some "V" ∧
    okStr (getPath
      (encBatch ⟨"B", "", "bt",
        [⟨"s1", "S1", "t1", [⟨"sec1", "Sec1", .video, [⟨"c1", "T1", "u1", .video, some "old"⟩]⟩]⟩],
        "standard-grid", 0, true, 0⟩)
      [Seg.fld "subjects", Seg.idx 0, Seg.fld "sections", Seg.idx 0, Seg.fld "contents",
        Seg.idx 0, Seg.fld "thumbnail"]) = some "old" := by
  refine ⟨Diverges.tail _ _ _ (Diverges.tail _ _ _ (Diverges.head _ _ _ _ (by decide))),
    by decide, by decide⟩

/-- C2 amended: for every well-typed update path that is not of the cascade
shape, a successful update writes the new value at the path and leaves the
subtree at every well-typed diverging path unchanged. -/
theorem c2_frame_noncascade (v : Val) (P : List Seg) (x r : Val)
    (hshape : ∀ s0 s1 s2, P = [s0, s1, s2] →
      ¬ (s0 = Seg.fld "subjects" ∧ s2 = Seg.fld "thumbnail"))
    (hfit : fitsUpd v P = true)
    (hu : handleNestedChange v P x = .ok r) :
    getPath r P = .ok x ∧
    (∀ Q, Diverges P Q → fitsGet v Q = true → getPath r Q = getPath v Q) := by
  rw [handleNested_noncascade v P x hshape] at hu
  have hne : P ≠ [] := by
    intro he
    subst he
    simp [fitsUpd] at hfit
  exact ⟨updatePath_get P v r x hne hu,
    fun Q hD hQ => updatePath_frame hD v r x hfit hQ hu⟩

/-- Witness for c2_frame_noncascade at a concrete object and path. -/
theorem c2_frame_noncascade_witness :
    getPath (Val.obj [("name", Val.str "N"), ("subjects", Val.arr [])]) [Seg.fld "name"] =
      .ok (.str "N") :=
  (c2_frame_noncascade (Val.obj [("name", Val.str "B"), ("subjects", Val.arr [])])
    [Seg.fld "name"] (Val.str "N")
    (Val.obj [("name", Val.str "N"), ("subjects", Val.arr [])])
    (fun s0 s1 s2 h => by simp at h) (by decide) rfl).1

/-! ### C3: behavior on paths to missing structure -/

/-- Assignability of one property on a node, as JS strict mode permits it. -/
def canSet : Val → Seg → Bool
  | .obj _, _ => true
  | .arr _, .idx _ => true
  | _, _ => false

/-- C3 counterexample: assigning a non-existent final field does not fail; it
silently materializes the field (the update succeeds and the new field reads
back the assigned value, where before the update it read undefined). -/
theorem c3_counterexample :
    (handleNestedChange (Val.obj [("name", Val.str "B")]) [Seg.fld "bogus"]
      (Val.str "v")).isOk = true ∧
    okStr (Except.bind
      (handleNestedChange (Val.obj [("name", Val.str "B")]) [Seg.fld "bogus"] (Val.str "v"))
      (fun r => getPath r [Seg.fld "bogus"])) = some "v" ∧
    okStr (getPath (Val.obj [("name", Val.str "B")]) [Seg.fld "bogus"]) = none := by
  refine ⟨rfl, rfl, rfl⟩

theorem no_path_from_undef (pre : List Seg) (w : Val) (s : Seg)
    (hg : getPath .undefined pre = .ok w) (hc : canSet w s = true) : False := by
  cases pre with
  | nil =>
    have hw : w = .undefined := by simpa [getPath] using hg.symm
    subst hw
    simp [canSet] at hc
  | cons q tq =>
    rw [show getPath Val.undefined (q :: tq) = Except.error () from rfl] at hg
    exact absurd hg (by simp)

theorem updatePath_error_of_missing : ∀ (P : List Seg) (v x : Val), P ≠ [] →
    (getPath v P.dropLast = .error () ∨ getPath v P.dropLast = .ok .undefined) →
    updatePath v P x = .error ()
  | [], _, _, hne, _ => absurd rfl hne
  | [s], v, x, _, h2 => by
    rcases h2 with h | h
    · exact absurd h (by simp [getPath])
    · have hv : v = .undefined := by simpa [getPath] using h
      subst hv
      exact updatePath_undef [s] (by simp) x
  | s :: a :: t, v, x, _, h2 => by
    have hdl : (s :: a :: t).dropLast = s :: (a :: t).dropLast := rfl
    cases hg : getProp v s with
    | error e =>
      cases e
      show Except.bind (getProp v s)
        (fun child => Except.bind (updatePath child (a :: t) x)
          (fun c2 => setProp v s c2)) = Except.error ()
      rw [hg]
      rfl
    | ok c =>
      have h2' : getPath c (a :: t).dropLast = .error () ∨
          getPath c (a :: t).dropLast = .ok .undefined := by
        rcases h2 with h | h
        · left
          rw [hdl, show getPath v (s :: (a :: t).dropLast) =
            Except.bind (getProp v s) (fun c => getPath c ((a :: t).dropLast)) from rfl,
            hg] at h
          exact h
        · right
          rw [hdl, show getPath v (s :: (a :: t).dropLast) =
            Except.bind (getProp v s) (fun c => getPath c ((a :: t).dropLast)) from rfl,
            hg] at h
          exact h
      have hrec := updatePath_error_of_missing (a :: t) c x (by simp) h2'
      show Except.bind (getProp v s)
        (fun child => Except.bind (updatePath child (a :: t) x)
          (fun c2 => setProp v s c2)) = Except.error ()
      rw [hg]
      show Except.bind (updatePath c (a :: t) x) (fun c2 => setProp v s c2) = Except.error ()
      rw [hrec]
      rfl

theorem updatePath_ok_of_parent : ∀ (pre : List Seg) (v w x : Val) (s : Seg),
    getPath v pre = .ok w → canSet w s = true →
    (updatePath v (pre ++ [s]) x).isOk = true
  | [], v, w, x, s, hg, hc => by
    have hv : v = w := by simpa [getPath] using hg
    subst hv
    cases v with
    | obj fs => cases s <;> rfl
    | arr xs =>
      cases s with
      | idx n => rfl
      | fld key => exact absurd hc (by simp [canSet])
    | undefined => exact absurd hc (by simp [canSet])
    | str s0 => exact absurd hc (by simp [canSet])
    | num n0 => exact absurd hc (by simp [canSet])
    | bool b0 => exact absurd hc (by simp [canSet])
  | p :: pre, v, w, x, s, hg, hc => by
    cases hgp : getProp v p with
    | error e =>
      cases e
      rw [show getPath v (p :: pre) =
        Except.bind (getProp v p) (fun c => getPath c pre) from rfl, hgp] at hg
      exact absurd hg (by simp [Except.bind])
    | ok c =>
      rw [show getPath v (p :: pre) =
        Except.bind (getProp v p) (fun c => getPath c pre) from rfl, hgp] at hg
      have hg' : getPath c pre = .ok w := hg
      have ih := updatePath_ok_of_parent pre c w x s hg' hc
      cases hres : updatePath c (pre ++ [s]) x with
      | error e =>
        cases e
        rw [hres] at ih
        exact absurd ih (by decide)
      | ok c2 =>
        have hstep : updatePath v (p :: (pre ++ [s])) x =
            Except.bind (getProp v p) (fun child =>
              Except.bind (updatePath child (pre ++ [s]) x) (fun c2 => setProp v p c2)) := by
          cases pre <;> rfl
        rw [show (p :: pre) ++ [s] = p :: (pre ++ [s]) from rfl, hstep, hgp]
        show (Except.bind (updatePath c (pre ++ [s]) x) (fun c2 => setProp v p c2)).isOk = true
        rw [hres]
        show (setProp v p c2).isOk = true
        cases v with
        | undefined => simp [getProp] at hgp
        | obj fs => cases p <;> rfl
        | arr xs =>
          cases p with
          | idx n => rfl
          | fld key =>
            have hcu : Val.undefined = c := by simpa [getProp] using hgp
            exact (no_path_from_undef pre w s (by rw [hcu]; exact hg') hc).elim
        | str s0 =>
          have hcu : Val.undefined = c := by simpa [getProp] using hgp
          exact (no_path_from_undef pre w s (by rw [hcu]; exact hg') hc).elim
        | num n0 =>
          have hcu : Val.undefined = c := by simpa [getProp] using hgp
          exact (no_path_from_undef pre w s (by rw [hcu]; exact hg') hc).elim
        | bool b0 =>
          have hcu : Val.undefined = c := by simpa [getProp] using hgp
          exact (no_path_from_undef pre w s (by rw [hcu]; exact hg') hc).elim

/-- C3 amended: a path whose leading segments reach a missing or undefined
node fails with a propagating error before assigning anything; but a missing
final field or index under an existing assignable parent does not fail, the
assignment silently materializes it. -/
theorem c3_missing_path_behavior :
    (∀ (P : List Seg) (v x : Val), P ≠ [] →
      (getPath v P.dropLast = .error () ∨ getPath v P.dropLast = .ok .undefined) →
      updatePath v P x = .error ()) ∧
    (∀ (pre : List Seg) (v w x : Val) (s : Seg),
      getPath v pre = .ok w → canSet w s = true →
      (updatePath v (pre ++ [s]) x).isOk = true) :=
  ⟨updatePath_error_of_missing, updatePath_ok_of_parent⟩

/-- Witness for c3_missing_path_behavior at concrete objects. -/
theorem c3_missing_path_behavior_witness :
    updatePath (Val.obj [("a", Val.str "x")]) [Seg.fld "missing", Seg.fld "b"]
      (Val.str "v") = .error () ∧
    (updatePath (Val.obj [("a", Val.str "x")]) ([] ++ [Seg.fld "b"]) (Val.str "v")).isOk =
      true :=
  ⟨c3_missing_path_behavior.1 [Seg.fld "missing", Seg.fld "b"]
    (Val.obj [("a", Val.str "x")]) (Val.str "v") (by simp) (Or.inr rfl),
   c3_missing_path_behavior.2 [] (Val.obj [("a", Val.str "x")])
    (Val.obj [("a", Val.str "x")]) (Val.str "v") (Seg.fld "b") rfl rfl⟩

/-! ## Bulk selection and bulk apply
(src/src/components/BatchEditor.tsx, applyBulkThumbnail, lines 163-185) -/

/-- String-level trim used by the component. -/
def trimS (s : String) : String := (trimChars s.toList).asString

/-- A default section for out-of-range reads in statement helpers. -/
def defSection : Section := ⟨"", "", .video, []⟩

/-- A default content for out-of-range reads in statement helpers. -/
def defContent : Content := ⟨"", "", "", .video, none⟩

/-- The editor state consumed by applyBulkThumbnail: batch data, the set of
selected content ids (membership is all that is used of the JS Set), and the
bulk input value. -/
structure EditorState where
  batchData : Batch
  selectedContents : List String
  bulkThumbnailUrl : String
deriving DecidableEq, Repr

/-- The full-tree content traversal of applyBulkThumbnail. -/
def mapBatchContents (f : Content → Content) (b : Batch) : Batch :=
  { b with
    subjects := b.subjects.map (fun subj =>
      { subj with
        sections := subj.sections.map (fun sec =>
          { sec with contents := sec.contents.map f }) }) }

/-- Model of applyBulkThumbnail: a blank trimmed value or an empty selection
reports a validation failure (false) and mutates nothing; otherwise every
content whose id is selected is overwritten with the trimmed value, the
selection and the input are cleared, and success (true) is reported. -/
def applyBulkThumbnail (st : EditorState) : Bool × EditorState :=
  if trimS st.bulkThumbnailUrl = "" ∨ st.selectedContents.isEmpty = true then
    (false, st)
  else
    (true,
      { batchData := mapBatchContents (fun c =>
          if st.selectedContents.contains c.id then
            { c with thumbnail := some (trimS st.bulkThumbnailUrl) }
          else c) st.batchData,
        selectedContents := [],
        bulkThumbnailUrl := "" })

/-! ### C5: bulk apply behavior -/

/-- C5 counterexample: with selection c1 and value with surrounding spaces,
the apply succeeds but stores the trimmed value, not the applied value. -/
theorem c5_counterexample :
    (applyBulkThumbnail ⟨⟨"B", "", "bt",
      [⟨"s1", "S1", "t1", [⟨"sec1", "Sec1", .video, [⟨"c1", "T1", "u1", .video, some "old"⟩]⟩]⟩],
      "standard-grid", 0, true, 0⟩, ["c1"], " T "⟩).1 = true ∧
    ((((applyBulkThumbnail ⟨⟨"B", "", "bt",
      [⟨"s1", "S1", "t1", [⟨"sec1", "Sec1", .video, [⟨"c1", "T1", "u1", .video, some "old"⟩]⟩]⟩],
      "standard-grid", 0, true, 0⟩, ["c1"], " T "⟩).2.batchData.subjects.getD 0
        defSubject).sections.getD 0 defSection).contents.getD 0 defContent).thumbnail =
      some "T" ∧
    some "T" ≠ some (" T " : String) := by
  refine ⟨by decide, by decide, by decide⟩

theorem getD_map_lt {α β : Type} (f : α → β) (l : List α) (i : Nat) (h : i < l.length)
    (d : β) (d2 : α) : (l.map f).getD i d = f (l.getD i d2) := by
  rw [List.getD_eq_getElem _ _ (by simpa using h), List.getD_eq_getElem _ _ h,
    List.getElem_map]

theorem mapBatchContents_getD (f : Content → Content) (b : Batch) (i j k : Nat)
    (hi : i < b.subjects.length)
    (hj : j < (b.subjects.getD i defSubject).sections.length)
    (hk : k < ((b.subjects.getD i defSubject).sections.getD j defSection).contents.length) :
    ((((mapBatchContents f b).subjects.getD i defSubject).sections.getD j
      defSection).contents.getD k defContent) =
      f (((b.subjects.getD i defSubject).sections.getD j defSection).contents.getD k
        defContent) := by
  simp only [mapBatchContents]
  rw [getD_map_lt _ _ _ hi defSubject defSubject]
  rw [getD_map_lt _ _ _ hj defSection defSection]
  rw [getD_map_lt _ _ _ hk defContent defContent]

/-- C5 amended: an empty selection or a blank value is a validation failure
and the whole state, in particular the tree, is unchanged; otherwise apply
succeeds, clears the selection and the input, and every content position of
the tree holds the old content with its thumbnail overwritten by the trimmed
value when its id is selected, and the unchanged old content otherwise. -/
theorem c5_bulk_apply (st : EditorState) :
    ((trimS st.bulkThumbnailUrl = "" ∨ st.selectedContents = []) →
      applyBulkThumbnail st = (false, st)) ∧
    (trimS st.bulkThumbnailUrl ≠ "" → st.selectedContents ≠ [] →
      (applyBulkThumbnail st).1 = true ∧
      (applyBulkThumbnail st).2.selectedContents = [] ∧
      (applyBulkThumbnail st).2.bulkThumbnailUrl = "" ∧
      (∀ i j k, i < st.batchData.subjects.length →
        j < (st.batchData.subjects.getD i defSubject).sections.length →
        k < ((st.batchData.subjects.getD i defSubject).sections.getD j
          defSection).contents.length →
        ((((applyBulkThumbnail st).2.batchData.subjects.getD i defSubject).sections.getD j
          defSection).contents.getD k defContent) =
          (let c := ((st.batchData.subjects.getD i defSubject).sections.getD j
            defSection).contents.getD k defContent
           if st.selectedContents.contains c.id then
             { c with thumbnail := some (trimS st.bulkThumbnailUrl) }
           else c))) := by
  constructor
  · intro h
    have hcond : trimS st.bulkThumbnailUrl = "" ∨ st.selectedContents.isEmpty = true := by
      rcases h with h | h
      · exact Or.inl h
      · exact Or.inr (by simp [h])
    simp only [applyBulkThumbnail, if_pos hcond]
  · intro h1 h2
    have hcond : ¬ (trimS st.bulkThumbnailUrl = "" ∨ st.selectedContents.isEmpty = true) := by
      rintro (h | h)
      · exact h1 h
      · exact h2 (by simpa using h)
    refine ⟨?_, ?_, ?_, ?_⟩
    · simp only [applyBulkThumbnail, if_neg hcond]
    · simp only [applyBulkThumbnail, if_neg hcond]
    · simp only [applyBulkThumbnail, if_neg hcond]
    · intro i j k hi hj hk
      simp only [applyBulkThumbnail, if_neg hcond]
      exact mapBatchContents_getD _ st.batchData i j k hi hj hk

/-- Witness for c5_bulk_apply at concrete states: the blank-value case leaves
the state unchanged, and a successful case reports success. -/
theorem c5_bulk_apply_witness :
    applyBulkThumbnail ⟨⟨"B", "", "bt", [], "standard-grid", 0, true, 0⟩, ["c1"], "  "⟩ =
      (false, ⟨⟨"B", "", "bt", [], "standard-grid", 0, true, 0⟩, ["c1"], "  "⟩) ∧
    (applyBulkThumbnail ⟨⟨"B", "", "bt",
      [⟨"s1", "S1", "t1", [⟨"sec1", "Sec1", .video, [⟨"c1", "T1", "u1", .video, none⟩]⟩]⟩],
      "standard-grid", 0, true, 0⟩, ["c1"], "T"⟩).1 = true :=
  ⟨(c5_bulk_apply ⟨⟨"B", "", "bt", [], "standard-grid", 0, true, 0⟩, ["c1"], "  "⟩).1
    (Or.inl (by decide)),
   ((c5_bulk_apply ⟨⟨"B", "", "bt",
      [⟨"s1", "S1", "t1", [⟨"sec1", "Sec1", .video, [⟨"c1", "T1", "u1", .video, none⟩]⟩]⟩],
      "standard-grid", 0, true, 0⟩, ["c1"], "T"⟩).2 (by decide) (by decide)).1⟩

end NextToppers
